import Mathlib

/-!
Verification of the catapult mongo bulk-persistence engine
(`src/extensions/mongo/src/MongoBulkWriter.h`) against its
natural-language specification.

The C++ source is shallowly embedded: pure computations become Lean
functions, machine integers become `Int`/`Nat` with explicit reduction
modulo `2 ^ 32` where overflow matters, and the asynchronous executor is
modelled as a pure function from the (external) database driver's
behaviour to the ordered trace of observable events it produces.
Components of the repository that are only declared, not defined, under
`src/` (the partitioner `thread::ParallelForPartition` and the future
combinators `thread::when_all` / `thread::compose`) are modelled from
the specification's words; their doc comments say so explicitly.
-/

namespace CatapultMongo

/-! ## Machine-integer arithmetic

`BulkWriteResult` stores its five counters as C++ `int32_t`
(`MongoBulkWriter.h`, lines 61-76).  Signed 32-bit arithmetic is
modelled on `Int` by reducing into the interval
`[-2 ^ 31, 2 ^ 31 - 1]` after every addition. -/

/-- Reduction of an integer into the value range of a C++ `int32_t`,
i.e. two's-complement wrap-around modulo `2 ^ 32`. -/
def wrap32 (z : Int) : Int := (z + 2 ^ 31) % 2 ^ 32 - 2 ^ 31

/-- Value range of a C++ `int32_t`. -/
def Int32InRange (z : Int) : Prop := -2 ^ 31 ≤ z ∧ z < 2 ^ 31

instance (z : Int) : Decidable (Int32InRange z) := by
  unfold Int32InRange; infer_instance

theorem wrap32_inRange (z : Int) : Int32InRange (wrap32 z) := by
  unfold Int32InRange wrap32
  constructor <;> omega

theorem wrap32_of_inRange {z : Int} (h : Int32InRange z) : wrap32 z = z := by
  unfold Int32InRange at h
  unfold wrap32
  omega

theorem wrap32_add_left (a b : Int) : wrap32 (wrap32 a + b) = wrap32 (a + b) := by
  unfold wrap32
  omega

theorem wrap32_add_right (a b : Int) : wrap32 (a + wrap32 b) = wrap32 (a + b) := by
  unfold wrap32
  omega

/-! ## BulkWriteResult (`MongoBulkWriter.h`, lines 25-76) -/

/-- Result of a bulk write operation to the database: the five `int32_t`
counters of `struct BulkWriteResult`. -/
structure BulkWriteResult where
  NumInserted : Int
  NumMatched : Int
  NumModified : Int
  NumDeleted : Int
  NumUpserted : Int
deriving DecidableEq

/-- Default-constructed `BulkWriteResult` (lines 29-35): all counters zero. -/
def BulkWriteResult.empty : BulkWriteResult := ⟨0, 0, 0, 0, 0⟩

/-- Invariant of a genuine `BulkWriteResult`: every counter fits in an
`int32_t`. -/
def BulkWriteResult.InRange (r : BulkWriteResult) : Prop :=
  Int32InRange r.NumInserted ∧ Int32InRange r.NumMatched ∧ Int32InRange r.NumModified ∧
    Int32InRange r.NumDeleted ∧ Int32InRange r.NumUpserted

instance (r : BulkWriteResult) : Decidable r.InRange := by
  unfold BulkWriteResult.InRange; infer_instance

/-- One step of the accumulation loop in `BulkWriteResult::Aggregate`
(lines 50-56): the five `+=` statements, each an `int32_t` addition. -/
def addResult (aggregate r : BulkWriteResult) : BulkWriteResult :=
  ⟨wrap32 (aggregate.NumInserted + r.NumInserted),
   wrap32 (aggregate.NumMatched + r.NumMatched),
   wrap32 (aggregate.NumModified + r.NumModified),
   wrap32 (aggregate.NumDeleted + r.NumDeleted),
   wrap32 (aggregate.NumUpserted + r.NumUpserted)⟩

/-- Static `BulkWriteResult::Aggregate` (lines 48-59): fold the `+=`
loop over the list of results, starting from a default-constructed
aggregate. -/
def BulkWriteResult.Aggregate (results : List BulkWriteResult) : BulkWriteResult :=
  results.foldl addResult BulkWriteResult.empty

theorem foldl_wrapAdd (l : List Int) (a : Int) :
    List.foldl (fun x y => wrap32 (x + y)) (wrap32 a) l = wrap32 (a + l.sum) := by
  induction l generalizing a with
  | nil => simp
  | cons b l ih =>
      simp only [List.foldl_cons, List.sum_cons]
      rw [wrap32_add_left, ih, Int.add_assoc]

theorem foldl_addResult_field (g : BulkWriteResult → Int)
    (hg : ∀ a b, g (addResult a b) = wrap32 (g a + g b)) (rs : List BulkWriteResult)
    (acc : BulkWriteResult) :
    g (List.foldl addResult acc rs) =
      List.foldl (fun x y => wrap32 (x + y)) (g acc) (rs.map g) := by
  induction rs generalizing acc with
  | nil => simp
  | cons r rs ih =>
      simp only [List.foldl_cons, List.map_cons]
      rw [ih, hg]

theorem wrap32_zero : wrap32 0 = 0 := by decide

theorem Aggregate_field (g : BulkWriteResult → Int)
    (hg : ∀ a b, g (addResult a b) = wrap32 (g a + g b))
    (hg0 : g BulkWriteResult.empty = 0) (rs : List BulkWriteResult) :
    g (BulkWriteResult.Aggregate rs) = wrap32 ((rs.map g).sum) := by
  unfold BulkWriteResult.Aggregate
  rw [foldl_addResult_field g hg, hg0, ← wrap32_zero, foldl_wrapAdd, Int.zero_add]

theorem wrap32_sum_map (l : List Int) :
    wrap32 ((l.map wrap32).sum) = wrap32 l.sum := by
  induction l with
  | nil => simp
  | cons a l ih =>
      simp only [List.map_cons, List.sum_cons]
      rw [wrap32_add_left, ← wrap32_add_right a ((l.map wrap32).sum), ih, wrap32_add_right]

/-! ## Low-level bulk operations

Model of the database wire contract (`spec.md` §6): a bulk command is an
ordered batch of sub-operations.  `mongocxx` offers both a
first-match-only delete (`delete_one`) and an all-matching delete
(`delete_many`); the variant set below keeps both so that the source's
choice is observable. -/

/-- One low-level write sub-operation of a bulk command.  `Doc` is the
type of BSON documents produced by a document mapper, `Flt` the type of
filter documents produced by a filter mapper. -/
inductive BulkOp (Doc Flt : Type) where
  | insert_one (doc : Doc)
  | replace_one (filter : Flt) (doc : Doc) (upsert : Bool)
  | delete_one (filter : Flt)
  | delete_many (filter : Flt)
deriving DecidableEq

/-- Modulus of the C++ `uint32_t` running index of the partition lambda
(`MongoBulkWriter.h`, line 257: `static_cast<uint32_t>(startIndex)`). -/
def UINT32_MOD : Nat := 2 ^ 32

/-- The builder loop of the partition lambda (`MongoBulkWriter.h`, lines
256-259): starting from `startIndex`, apply the append operation to each
entity of the slice with a running index.  The index is a `uint32_t` in
the source, so each application sees the running index reduced modulo
`2 ^ 32`. -/
def buildBulk {α Doc Flt : Type} (appendOperation : α → Nat → List (BulkOp Doc Flt)) :
    List α → Nat → List (BulkOp Doc Flt)
  | [], _ => []
  | entity :: rest, index =>
      appendOperation entity (index % UINT32_MOD) ++ buildBulk appendOperation rest (index + 1)

/-- Append operation of the one-to-one `bulkInsert` (lines 128-131): one
insert per entity, of the document `createDocument(entity, index)`. -/
def insertOneAppend {α Doc Flt : Type} (createDocument : α → Nat → Doc) :
    α → Nat → List (BulkOp Doc Flt) :=
  fun entity index => [BulkOp.insert_one (createDocument entity index)]

/-- Append operation of the one-to-many `bulkInsert` (lines 143-146):
one insert per document returned by `createDocuments(entity, index)`,
preserving list order. -/
def insertManyAppend {α Doc Flt : Type} (createDocuments : α → Nat → List Doc) :
    α → Nat → List (BulkOp Doc Flt) :=
  fun entity index => (createDocuments entity index).map BulkOp.insert_one

/-- Append operation of `bulkUpsert` (lines 159-165): one replace
operation with the upsert flag set, filter `createFilter(entity)` and
replacement document `createDocument(entity, index)`. -/
def upsertAppend {α Doc Flt : Type} (createDocument : α → Nat → Doc)
    (createFilter : α → Flt) : α → Nat → List (BulkOp Doc Flt) :=
  fun entity index => [BulkOp.replace_one (createFilter entity) (createDocument entity index) true]

/-- Append operation of `bulkDelete` (lines 176-179): one `delete_many`
operation with filter `createFilter(entity)`; the index is unused. -/
def deleteAppend {α Doc Flt : Type} (createFilter : α → Flt) :
    α → Nat → List (BulkOp Doc Flt) :=
  fun entity _ => [BulkOp.delete_many (createFilter entity)]

/-! ## Partitioner (modelled from the spec)

`thread::ParallelForPartition` lives in `catapult/thread/ParallelFor.h`,
which is not under `src/`; only its call site (`MongoBulkWriter.h`,
lines 247-262) is.  The partition geometry below is therefore modelled
from the spec. -/

/-- Modelled from the spec: partition count `P = min(W, L)` for sequence
length `L` and worker count `W` (`spec.md` §4.1; the call site sizes its
slot array to `std::min(entities.size(), numThreads)`, line 245). -/
def partitionCount (L W : Nat) : Nat := min W L

/-- Modelled from the spec: size of partition `i` of `L` elements split
into `P` near-equal contiguous partitions — base size `L / P`, one extra
element for the first `L % P` partitions (`spec.md` §4.1). -/
def partitionSize (L P i : Nat) : Nat := L / P + if i < L % P then 1 else 0

/-- Modelled from the spec: start index of partition `i`, the cumulative
size of the preceding partitions (`spec.md` §4.1). -/
def partitionStart (L P : Nat) : Nat → Nat
  | 0 => 0
  | i + 1 => partitionStart L P i + partitionSize L P i

/-- Entity slice of partition `i`: the contiguous slice of length
`partitionSize` starting at `partitionStart`. -/
def partitionSlice {α : Type} (entities : List α) (P i : Nat) : List α :=
  ((entities.drop (partitionStart entities.length P i)).take
    (partitionSize entities.length P i))

/-- The dispatcher `MongoBulkWriter::bulkWrite<TEntity, TContainer>`
(lines 236-266) reduced to its per-partition bulk commands: an empty
entity sequence short-circuits to an empty plan (lines 241-242);
otherwise each of the `P = min(L, numThreads)` partitions builds one
bulk command from its slice, with the running index initialized to the
partition's start index. -/
def bulkWritePlan {α Doc Flt : Type} (appendOperation : α → Nat → List (BulkOp Doc Flt))
    (entities : List α) (numThreads : Nat) : List (List (BulkOp Doc Flt)) :=
  if entities.isEmpty then []
  else
    (List.range (partitionCount entities.length numThreads)).map fun batchIndex =>
      buildBulk appendOperation (partitionSlice entities (partitionCount entities.length numThreads) batchIndex)
        (partitionStart entities.length (partitionCount entities.length numThreads) batchIndex)

/-- Public operation `bulkInsert` with a one-to-one document mapper
(lines 123-134), reduced to its per-partition bulk commands. -/
def bulkInsertPlan {α Doc Flt : Type} (createDocument : α → Nat → Doc)
    (entities : List α) (numThreads : Nat) : List (List (BulkOp Doc Flt)) :=
  bulkWritePlan (insertOneAppend createDocument) entities numThreads

/-- Public operation `bulkInsert` with a one-to-many document mapper
(lines 138-149), reduced to its per-partition bulk commands. -/
def bulkInsertManyPlan {α Doc Flt : Type} (createDocuments : α → Nat → List Doc)
    (entities : List α) (numThreads : Nat) : List (List (BulkOp Doc Flt)) :=
  bulkWritePlan (insertManyAppend createDocuments) entities numThreads

/-- Public operation `bulkUpsert` (lines 153-168), reduced to its
per-partition bulk commands. -/
def bulkUpsertPlan {α Doc Flt : Type} (createDocument : α → Nat → Doc)
    (createFilter : α → Flt) (entities : List α) (numThreads : Nat) :
    List (List (BulkOp Doc Flt)) :=
  bulkWritePlan (upsertAppend createDocument createFilter) entities numThreads

/-- Public operation `bulkDelete` (lines 171-182), reduced to its
per-partition bulk commands. -/
def bulkDeletePlan {α Doc Flt : Type} (createFilter : α → Flt)
    (entities : List α) (numThreads : Nat) : List (List (BulkOp Doc Flt)) :=
  bulkWritePlan (deleteAppend createFilter) entities numThreads

/-! ## Partition geometry lemmas -/

theorem partitionStart_zero (L P : Nat) : partitionStart L P 0 = 0 := rfl

theorem partitionStart_succ (L P i : Nat) :
    partitionStart L P (i + 1) = partitionStart L P i + partitionSize L P i := rfl

theorem partitionStart_closed (L P i : Nat) :
    partitionStart L P i = i * (L / P) + min i (L % P) := by
  induction i with
  | zero => simp [partitionStart]
  | succ i ih =>
      rw [partitionStart_succ, ih]
      unfold partitionSize
      rw [Nat.succ_mul]
      split <;> omega

theorem partitionStart_last (L P : Nat) (hP : 0 < P) : partitionStart L P P = L := by
  rw [partitionStart_closed]
  have hlt : L % P < P := Nat.mod_lt L hP
  have hmin : min P (L % P) = L % P := Nat.min_eq_right (Nat.le_of_lt hlt)
  rw [hmin]
  exact Nat.div_add_mod L P

theorem partitionStart_le (L P n : Nat) (hn : n ≤ P) :
    partitionStart L P n ≤ L := by
  rw [partitionStart_closed]
  have h1 : n * (L / P) ≤ P * (L / P) := Nat.mul_le_mul_right _ hn
  have h2 : min n (L % P) ≤ L % P := Nat.min_le_right _ _
  have h3 : P * (L / P) + L % P = L := Nat.div_add_mod L P
  omega

theorem partition_cover (L P n : Nat) :
    (List.range n).flatMap
        (fun i => List.range' (partitionStart L P i) (partitionSize L P i)) =
      List.range' 0 (partitionStart L P n) := by
  induction n with
  | zero => simp [partitionStart]
  | succ n ih =>
      rw [List.range_succ, List.flatMap_append, ih]
      have happ := List.range'_append 0 (partitionStart L P n) (partitionSize L P n) 1
      simp only [Nat.one_mul, Nat.zero_add] at happ
      simp only [List.flatMap_cons, List.flatMap_nil, List.append_nil]
      rw [happ, partitionStart_succ, Nat.add_comm (partitionSize L P n)]

/-! ## Builder lemmas -/

theorem buildBulk_append {α Doc Flt : Type} (f : α → Nat → List (BulkOp Doc Flt))
    (xs ys : List α) (s : Nat) :
    buildBulk f (xs ++ ys) s = buildBulk f xs s ++ buildBulk f ys (s + xs.length) := by
  induction xs generalizing s with
  | nil => simp [buildBulk]
  | cons a xs ih =>
      simp only [List.cons_append, buildBulk, List.length_cons, List.append_eq]
      rw [ih (s + 1), List.append_assoc]
      have h : s + 1 + xs.length = s + (xs.length + 1) := by omega
      rw [h]

theorem buildBulk_mapIdx {α Doc Flt : Type} (f : α → Nat → List (BulkOp Doc Flt))
    (l : List α) (s : Nat) :
    buildBulk f l s = (l.mapIdx fun k e => f e ((s + k) % UINT32_MOD)).flatten := by
  induction l generalizing s with
  | nil => simp [buildBulk]
  | cons a l ih =>
      have harg : (fun i (e : α) => f e ((s + 1 + i) % UINT32_MOD)) =
          fun i e => f e ((s + (i + 1)) % UINT32_MOD) := by
        funext i e
        rw [Nat.add_assoc, Nat.add_comm 1 i]
      rw [buildBulk, List.mapIdx_cons, List.flatten_cons, ih (s + 1), harg]
      simp only [Nat.add_zero]

theorem flatten_mapIdx_singleton {α β : Type} (g : Nat → α → β) (l : List α) :
    (l.mapIdx fun k e => [g k e]).flatten = l.mapIdx g := by
  induction l generalizing g with
  | nil => simp
  | cons a l ih =>
      rw [List.mapIdx_cons, List.mapIdx_cons, List.flatten_cons, List.singleton_append]
      rw [ih fun i e => g (i + 1) e]

theorem mapIdx_congr_lt {α β : Type} (f g : Nat → α → β) (l : List α)
    (h : ∀ i a, i < l.length → f i a = g i a) : l.mapIdx f = l.mapIdx g := by
  induction l generalizing f g with
  | nil => simp
  | cons a l ih =>
      rw [List.mapIdx_cons, List.mapIdx_cons, h 0 a (by simp)]
      rw [ih (fun i => f (i + 1)) (fun i => g (i + 1))
        (fun i b hi => h (i + 1) b (by simpa using Nat.succ_lt_succ hi))]

theorem plan_flatten_aux {α Doc Flt : Type} (f : α → Nat → List (BulkOp Doc Flt))
    (entities : List α) (P : Nat) :
    ∀ n, n ≤ P →
      ((List.range n).map fun i =>
          buildBulk f (partitionSlice entities P i) (partitionStart entities.length P i)).flatten =
        buildBulk f (entities.take (partitionStart entities.length P n)) 0 := by
  intro n
  induction n with
  | zero => simp [partitionStart, buildBulk]
  | succ n ih =>
      intro hn
      have hnP : n ≤ P := Nat.le_of_lt hn
      rw [List.range_succ, List.map_append, List.flatten_append, ih hnP]
      simp only [List.map_cons, List.map_nil, List.flatten_cons, List.flatten_nil,
        List.append_nil]
      have hstart : partitionStart entities.length P n ≤ entities.length :=
        partitionStart_le entities.length P n hnP
      have hlen : (entities.take (partitionStart entities.length P n)).length =
          partitionStart entities.length P n := List.length_take_of_le hstart
      have happ := buildBulk_append f (entities.take (partitionStart entities.length P n))
        (partitionSlice entities P n) 0
      rw [hlen, Nat.zero_add] at happ
      rw [← happ]
      unfold partitionSlice
      rw [← List.take_add, partitionStart_succ]

theorem bulkWritePlan_flatten {α Doc Flt : Type} (f : α → Nat → List (BulkOp Doc Flt))
    (entities : List α) (numThreads : Nat) (hW : 1 ≤ numThreads) :
    (bulkWritePlan f entities numThreads).flatten = buildBulk f entities 0 := by
  unfold bulkWritePlan
  by_cases he : entities.isEmpty
  · rw [if_pos he]
    rw [List.isEmpty_iff] at he
    subst he
    simp [buildBulk]
  · rw [if_neg he]
    rw [List.isEmpty_iff] at he
    have hL : 0 < entities.length := List.length_pos.mpr he
    have hP : 0 < partitionCount entities.length numThreads := by
      unfold partitionCount
      omega
    rw [plan_flatten_aux f entities (partitionCount entities.length numThreads) _ (Nat.le_refl _)]
    rw [partitionStart_last entities.length _ hP, List.take_length]

/-! ## Write Executor (`MongoBulkWriter.h`, lines 196-216)

The private `MongoBulkWriter::bulkWrite(collectionName, bulk, promise)`
runs on a worker thread.  Its interaction with the external mongo driver
is modelled from the spec as a behaviour value (`spec.md` §6 wire
contract and §7 taxonomy): the driver either returns counts, or throws a
`mongocxx::bulk_write_exception` carrying an error code/message and an
optional raw server error, or throws some other exception type — e.g. a
`ConnectionFailure` while acquiring the pooled connection (`spec.md` §7)
or any non-`bulk_write_exception` transport error.  The executor body is
then embedded literally: the `try` block, the single `catch` clause for
`mongocxx::bulk_write_exception`, and the events each path produces. -/

/-- Severity levels of `CATAPULT_LOG`, in increasing order. -/
inductive LogLevel where
  | trace
  | debug
  | info
  | important
  | warning
  | error
  | fatal
deriving DecidableEq

/-- Numeric severity of a log level; `fatal` is the highest. -/
def LogLevel.severity : LogLevel → Nat
  | .trace => 0
  | .debug => 1
  | .info => 2
  | .important => 3
  | .warning => 4
  | .error => 5
  | .fatal => 6

/-- Modelled from the spec: one invocation's behaviour of the external
mongo driver, as seen by the Write Executor.  `success` and `rejectBulk`
are the two outcomes of `collection.bulk_write` the source handles;
`acquireFailure` is a §7 `ConnectionFailure` thrown by
`m_connectionPool.acquire()` (not a `mongocxx::bulk_write_exception`),
and `otherFailure` any other non-`bulk_write_exception` error thrown
during execution.  `ε` is the type of such foreign exception values. -/
inductive MongoBehavior (ε : Type) where
  | success (counts : BulkWriteResult)
  | rejectBulk (codeMessage : String) (rawServerError : Option String)
  | acquireFailure (e : ε)
  | otherFailure (e : ε)
deriving DecidableEq

/-- Observable event of one executor invocation, in program order. -/
inductive ExecEvent (ε : Type) where
  | acquireConnection
  | logged (level : LogLevel) (message : String)
  | resolvedValue (r : BulkWriteResult)
  | resolvedFailure (diagnostic : String)
  | escaped (e : ε)
deriving DecidableEq

/-- Diagnostic string built by the `catch` clause (lines 206-211):
`"message: " + e.code().message()`, then `", description: " +
to_json(e.raw_server_error())` when the server supplied one. -/
def buildDiagnostic (codeMessage : String) (rawServerError : Option String) : String :=
  "message: " ++ codeMessage ++
    match rawServerError with
    | some description => ", description: " ++ description
    | none => ""

/-- The Write Executor body (lines 196-216) as a trace of events.  On
`success` the promise is resolved with the counts (lines 198-204); on a
`mongocxx::bulk_write_exception` the diagnostic is built, logged at
`fatal` severity and the promise is resolved with the failure (lines
205-215); any other exception type matches no `catch` clause and
escapes the executor unhandled, leaving the promise unresolved. -/
def execBulkWrite {ε : Type} (behavior : MongoBehavior ε) : List (ExecEvent ε) :=
  match behavior with
  | .success counts => [.acquireConnection, .resolvedValue counts]
  | .rejectBulk codeMessage rawServerError =>
      [.acquireConnection,
       .logged .fatal ("throwing exception: " ++ buildDiagnostic codeMessage rawServerError),
       .resolvedFailure (buildDiagnostic codeMessage rawServerError)]
  | .acquireFailure e => [.escaped e]
  | .otherFailure e => [.acquireConnection, .escaped e]

/-- An executor trace resolves its completion handle when it contains a
success value or a captured failure. -/
def resolvesHandle {ε : Type} (events : List (ExecEvent ε)) : Bool :=
  events.any fun ev =>
    match ev with
    | .resolvedValue _ => true
    | .resolvedFailure _ => true
    | _ => false

/-- An executor trace lets an error propagate unhandled past the
executor's boundary when it contains an `escaped` event. -/
def escapesHandle {ε : Type} (events : List (ExecEvent ε)) : Bool :=
  events.any fun ev =>
    match ev with
    | .escaped _ => true
    | _ => false

/-- An executor trace carries a captured failure. -/
def failedHandle {ε : Type} (events : List (ExecEvent ε)) : Bool :=
  events.any fun ev =>
    match ev with
    | .resolvedFailure _ => true
    | _ => false

/-- Number of pooled connections a list of executor traces acquires. -/
def connectionsAcquired {ε : Type} (traces : List (List (ExecEvent ε))) : Nat :=
  (traces.flatten.filter fun ev =>
    match ev with
    | ExecEvent.acquireConnection => true
    | _ => false).length

/-! ## Result aggregation and composition -/

/-- Modelled from the spec: `thread::when_all` / `thread::compose`
(`catapult/thread/FutureUtils.h`, not under `src/`) — the composed
aggregate handle is ready exactly when every per-partition completion
handle has resolved (`spec.md` §4.4). -/
def whenAllReady (resolved : List Bool) : Bool := resolved.all id

/-- Per-partition executor traces for a list of driver behaviours, one
behaviour per partition: each partition's trace is produced
independently by its own executor invocation. -/
def partitionTraces {ε : Type} (behaviors : List (MongoBehavior ε)) : List (List (ExecEvent ε)) :=
  behaviors.map execBulkWrite

/-- Number of `insert_one` sub-operations in a bulk command. -/
def countInsertOps {Doc Flt : Type} (ops : List (BulkOp Doc Flt)) : Nat :=
  (ops.filter fun op =>
    match op with
    | .insert_one _ => true
    | _ => false).length

/-- Modelled from the spec: the database wire contract (`spec.md` §6) —
a successful response to a bulk command consisting of insert
sub-operations reports an inserted count equal to the number of insert
sub-operations, tallied into the driver's `int32_t` counter, and zero
for the other counters. -/
def insertSuccessResult {Doc Flt : Type} (ops : List (BulkOp Doc Flt)) : BulkWriteResult :=
  ⟨wrap32 (countInsertOps ops), 0, 0, 0, 0⟩

/-! ## Engine lifetime (`spec.md` §3 lifecycle, §9)

Both scheduled task kinds capture `pThis = shared_from_this()`: the
per-partition build task (`MongoBulkWriter.h`, line 251) and the posted
execute task (line 189).  The reference-counting discipline is modelled
as a transition system over the engine's strong-reference count. -/

/-- Values captured by the per-partition build lambda (line 251) and the
posted execute lambda (line 189). -/
inductive LambdaCapture where
  | strongEngineRef
  | entitiesStart
  | collectionName
  | appendOperation
  | contextRef
  | bulkRef
  | promiseRef
deriving DecidableEq

/-- Captures of the per-partition build task lambda (lines 251-262). -/
def buildTaskCaptures : List LambdaCapture :=
  [.strongEngineRef, .entitiesStart, .collectionName, .appendOperation, .contextRef]

/-- Captures of the posted execute task lambda (lines 189-191). -/
def executeTaskCaptures : List LambdaCapture :=
  [.strongEngineRef, .collectionName, .bulkRef, .promiseRef]

/-- Strong-reference state of one engine: how many caller handles and
how many in-flight scheduled tasks currently exist, and the engine's
total strong-reference count. -/
structure EngineRefState where
  callerRefs : Nat
  tasksInFlight : Nat
  refCount : Nat
deriving DecidableEq

/-- State after `MongoBulkWriter::Create` (lines 108-118): one caller
handle, no scheduled task, reference count one. -/
def initialEngineState : EngineRefState := ⟨1, 0, 1⟩

/-- Transitions of the engine's strong-reference count.  Scheduling a
task requires a live engine and copies a `shared_from_this()` reference
into the task's captures; a finishing task drops its reference; a caller
may release its handle at any time. -/
inductive EngineStep : EngineRefState → EngineRefState → Prop where
  | scheduleTask (c f r : Nat) : EngineStep ⟨c, f, r + 1⟩ ⟨c, f + 1, r + 2⟩
  | finishTask (c f r : Nat) : EngineStep ⟨c, f + 1, r + 1⟩ ⟨c, f, r⟩
  | releaseCaller (c f r : Nat) : EngineStep ⟨c + 1, f, r + 1⟩ ⟨c, f, r⟩

/-- Engine states reachable from the state after `Create`. -/
def EngineReachable (s : EngineRefState) : Prop :=
  Relation.ReflTransGen EngineStep initialEngineState s

theorem engine_refCount_eq (s : EngineRefState) (h : EngineReachable s) :
    s.refCount = s.callerRefs + s.tasksInFlight := by
  induction h with
  | refl => rfl
  | tail _ hstep ih =>
      cases hstep <;> simp_all <;> omega

/-! ## Claim theorems -/

theorem BulkWriteResult.ext5 (x y : BulkWriteResult)
    (h1 : x.NumInserted = y.NumInserted) (h2 : x.NumMatched = y.NumMatched)
    (h3 : x.NumModified = y.NumModified) (h4 : x.NumDeleted = y.NumDeleted)
    (h5 : x.NumUpserted = y.NumUpserted) : x = y := by
  cases x
  cases y
  simp_all

theorem Aggregate_NumInserted (rs : List BulkWriteResult) :
    (BulkWriteResult.Aggregate rs).NumInserted = wrap32 ((rs.map fun r => r.NumInserted).sum) :=
  Aggregate_field _ (fun _ _ => rfl) rfl rs

theorem Aggregate_NumMatched (rs : List BulkWriteResult) :
    (BulkWriteResult.Aggregate rs).NumMatched = wrap32 ((rs.map fun r => r.NumMatched).sum) :=
  Aggregate_field _ (fun _ _ => rfl) rfl rs

theorem Aggregate_NumModified (rs : List BulkWriteResult) :
    (BulkWriteResult.Aggregate rs).NumModified = wrap32 ((rs.map fun r => r.NumModified).sum) :=
  Aggregate_field _ (fun _ _ => rfl) rfl rs

theorem Aggregate_NumDeleted (rs : List BulkWriteResult) :
    (BulkWriteResult.Aggregate rs).NumDeleted = wrap32 ((rs.map fun r => r.NumDeleted).sum) :=
  Aggregate_field _ (fun _ _ => rfl) rfl rs

theorem Aggregate_NumUpserted (rs : List BulkWriteResult) :
    (BulkWriteResult.Aggregate rs).NumUpserted = wrap32 ((rs.map fun r => r.NumUpserted).sum) :=
  Aggregate_field _ (fun _ _ => rfl) rfl rs

/-- C3: `Aggregate` is a pure elementwise sum over the five numeric
fields of its input results: the aggregate of the empty list is the
all-zero result, the elementwise addition is commutative and
associative, the all-zero result is its identity on genuine (in-range)
results, and the aggregate of a list is invariant under permutation of
the list. -/
theorem c3_aggregate_pure_sum :
    BulkWriteResult.Aggregate [] = BulkWriteResult.empty ∧
    BulkWriteResult.empty = ⟨0, 0, 0, 0, 0⟩ ∧
    (∀ rs rs' : List BulkWriteResult, rs.Perm rs' →
      BulkWriteResult.Aggregate rs = BulkWriteResult.Aggregate rs') ∧
    (∀ a b : BulkWriteResult, addResult a b = addResult b a) ∧
    (∀ a b c : BulkWriteResult,
      addResult (addResult a b) c = addResult a (addResult b c)) ∧
    (∀ r : BulkWriteResult, r.InRange →
      addResult BulkWriteResult.empty r = r ∧ addResult r BulkWriteResult.empty = r) := by
  refine ⟨rfl, rfl, ?_, ?_, ?_, ?_⟩
  · intro rs rs' hperm
    refine BulkWriteResult.ext5 _ _ ?_ ?_ ?_ ?_ ?_
    · rw [Aggregate_NumInserted, Aggregate_NumInserted, (hperm.map _).sum_eq]
    · rw [Aggregate_NumMatched, Aggregate_NumMatched, (hperm.map _).sum_eq]
    · rw [Aggregate_NumModified, Aggregate_NumModified, (hperm.map _).sum_eq]
    · rw [Aggregate_NumDeleted, Aggregate_NumDeleted, (hperm.map _).sum_eq]
    · rw [Aggregate_NumUpserted, Aggregate_NumUpserted, (hperm.map _).sum_eq]
  · intro a b
    refine BulkWriteResult.ext5 _ _ ?_ ?_ ?_ ?_ ?_ <;>
      simp [addResult, Int.add_comm]
  · intro a b c
    refine BulkWriteResult.ext5 _ _ ?_ ?_ ?_ ?_ ?_ <;>
      simp [addResult, wrap32_add_left, wrap32_add_right, Int.add_assoc]
  · intro r hr
    obtain ⟨h1, h2, h3, h4, h5⟩ := hr
    constructor <;>
      refine BulkWriteResult.ext5 _ _ ?_ ?_ ?_ ?_ ?_ <;>
        simp [addResult, BulkWriteResult.empty, wrap32_of_inRange, h1, h2, h3, h4, h5]

/-- C3 witness: the identity law applied at a concrete in-range result. -/
theorem c3_aggregate_pure_sum_witness :
    (⟨1, 2, 3, 4, 5⟩ : BulkWriteResult).InRange ∧
    addResult BulkWriteResult.empty ⟨1, 2, 3, 4, 5⟩ = ⟨1, 2, 3, 4, 5⟩ := by
  have h := (c3_aggregate_pure_sum.2.2.2.2.2 ⟨1, 2, 3, 4, 5⟩ (by decide)).1
  exact ⟨by decide, h⟩

/-- C10: the outcome counters are `int32_t` values and `Aggregate` sums
them without widening: for every list of results and every one of the
five counter fields, the aggregated field is the true field sum wrapped
modulo `2 ^ 32` into the signed 32-bit range; whenever the true sum
falls outside that range, the aggregated value therefore differs from
the true total. -/
theorem c10_aggregate_int32_wrap (g : BulkWriteResult → Int)
    (hfield : g = (fun r => r.NumInserted) ∨ g = (fun r => r.NumMatched) ∨
      g = (fun r => r.NumModified) ∨ g = (fun r => r.NumDeleted) ∨
      g = (fun r => r.NumUpserted))
    (rs : List BulkWriteResult) :
    g (BulkWriteResult.Aggregate rs) = wrap32 ((rs.map g).sum) ∧
    Int32InRange (g (BulkWriteResult.Aggregate rs)) ∧
    (¬ Int32InRange ((rs.map g).sum) →
      g (BulkWriteResult.Aggregate rs) ≠ (rs.map g).sum) := by
  have heq : g (BulkWriteResult.Aggregate rs) = wrap32 ((rs.map g).sum) := by
    rcases hfield with h | h | h | h | h <;> subst h
    · exact Aggregate_NumInserted rs
    · exact Aggregate_NumMatched rs
    · exact Aggregate_NumModified rs
    · exact Aggregate_NumDeleted rs
    · exact Aggregate_NumUpserted rs
  refine ⟨heq, ?_, ?_⟩
  · rw [heq]
    exact wrap32_inRange _
  · intro hover hne
    rw [hne] at heq
    exact hover (heq ▸ wrap32_inRange ((rs.map g).sum))

/-- C10 witness: two in-range results whose inserted counts sum to
`2 ^ 31`, outside the `int32_t` range; the aggregate differs from the
true total. -/
theorem c10_aggregate_int32_wrap_witness :
    ¬ Int32InRange ((([⟨2 ^ 31 - 1, 0, 0, 0, 0⟩, ⟨1, 0, 0, 0, 0⟩] :
        List BulkWriteResult).map fun r => r.NumInserted).sum) ∧
    (BulkWriteResult.Aggregate [⟨2 ^ 31 - 1, 0, 0, 0, 0⟩, ⟨1, 0, 0, 0, 0⟩]).NumInserted ≠
      (([⟨2 ^ 31 - 1, 0, 0, 0, 0⟩, ⟨1, 0, 0, 0, 0⟩] :
        List BulkWriteResult).map fun r => r.NumInserted).sum := by
  have hover : ¬ Int32InRange ((([⟨2 ^ 31 - 1, 0, 0, 0, 0⟩, ⟨1, 0, 0, 0, 0⟩] :
      List BulkWriteResult).map fun r => r.NumInserted).sum) := by decide
  exact ⟨hover,
    (c10_aggregate_int32_wrap (fun r => r.NumInserted) (Or.inl rfl)
      [⟨2 ^ 31 - 1, 0, 0, 0, 0⟩, ⟨1, 0, 0, 0, 0⟩]).2.2 hover⟩

theorem mem_mapIdx_exists {α β : Type} (g : Nat → α → β) (l : List α) (b : β)
    (hb : b ∈ l.mapIdx g) : ∃ k e, b = g k e := by
  induction l generalizing g with
  | nil => simp at hb
  | cons a l ih =>
      rw [List.mapIdx_cons] at hb
      rcases List.mem_cons.mp hb with h | h
      · exact ⟨0, a, h⟩
      · obtain ⟨k, e, he⟩ := ih (fun i => g (i + 1)) h
        exact ⟨k + 1, e, he⟩

/-- C1 (amended): every invocation of the Write Executor in which the
driver either succeeds or signals failure through the bulk-write error
channel (a `mongocxx::bulk_write_exception`, i.e. a command rejected by
the server) resolves its completion handle with a success value or a
captured failure, and lets no error escape; errors raised through any
other exception type — such as a failure to acquire a pooled
connection — are not captured by the executor. -/
theorem c1_executor_resolves {ε : Type} (behavior : MongoBehavior ε)
    (h : (∃ counts, behavior = MongoBehavior.success counts) ∨
      (∃ codeMessage rawServerError,
        behavior = MongoBehavior.rejectBulk codeMessage rawServerError)) :
    resolvesHandle (execBulkWrite behavior) = true ∧
    escapesHandle (execBulkWrite behavior) = false := by
  rcases h with ⟨c, rfl⟩ | ⟨m, r, rfl⟩ <;> exact ⟨rfl, rfl⟩

/-- C1 witness: the amended theorem applied to a concrete rejected
command. -/
theorem c1_executor_resolves_witness :
    ((∃ counts, (MongoBehavior.rejectBulk "duplicate key" none : MongoBehavior Unit) =
        MongoBehavior.success counts) ∨
      (∃ codeMessage rawServerError,
        (MongoBehavior.rejectBulk "duplicate key" none : MongoBehavior Unit) =
          MongoBehavior.rejectBulk codeMessage rawServerError)) ∧
    resolvesHandle (execBulkWrite
      (MongoBehavior.rejectBulk "duplicate key" none : MongoBehavior Unit)) = true ∧
    escapesHandle (execBulkWrite
      (MongoBehavior.rejectBulk "duplicate key" none : MongoBehavior Unit)) = false :=
  ⟨Or.inr ⟨"duplicate key", none, rfl⟩,
    c1_executor_resolves _ (Or.inr ⟨"duplicate key", none, rfl⟩)⟩

/-- C1 counterexample: a connection-acquisition failure (a thrown error
that is not a `mongocxx::bulk_write_exception`) leaves the completion
handle unresolved and propagates unhandled past the executor's
boundary, contradicting the claim that every invocation resolves its
handle and that no transport/connection error escapes. -/
theorem c1_executor_counterexample :
    resolvesHandle (execBulkWrite (MongoBehavior.acquireFailure () : MongoBehavior Unit)) =
      false ∧
    escapesHandle (execBulkWrite (MongoBehavior.acquireFailure () : MongoBehavior Unit)) =
      true := by
  decide

/-- C2: for every sequence length `L > 0` and worker count `W ≥ 1` the
dispatcher computes `P = min(W, L)` contiguous partitions whose sizes
are `L / P` plus one extra for the first `L mod P` of them, whose start
indices are the cumulative sizes of the preceding partitions, and whose
index ranges — taken over batch indices `0..P-1`, each occurring exactly
once and in order — concatenate to exactly `[0, L)`: the partitions are
disjoint and exhaustive. -/
theorem c2_partition_geometry (L W : Nat) (hW : 1 ≤ W) (hL : 0 < L) :
    0 < partitionCount L W ∧
    partitionCount L W = min W L ∧
    (∀ i, partitionSize L (partitionCount L W) i =
      L / partitionCount L W + if i < L % partitionCount L W then 1 else 0) ∧
    partitionStart L (partitionCount L W) 0 = 0 ∧
    (∀ i, partitionStart L (partitionCount L W) (i + 1) =
      partitionStart L (partitionCount L W) i + partitionSize L (partitionCount L W) i) ∧
    (List.range (partitionCount L W)).flatMap
        (fun i => List.range' (partitionStart L (partitionCount L W) i)
          (partitionSize L (partitionCount L W) i)) = List.range L := by
  have hP : 0 < partitionCount L W := by
    unfold partitionCount
    omega
  refine ⟨hP, rfl, fun i => rfl, rfl, fun i => rfl, ?_⟩
  rw [partition_cover L (partitionCount L W) (partitionCount L W),
    partitionStart_last L (partitionCount L W) hP, List.range_eq_range']

/-- C2 witness: five entities over two workers give two partitions of
sizes three and two, covering `[0, 5)`. -/
theorem c2_partition_geometry_witness :
    (1 ≤ 2 ∧ 0 < 5) ∧
    (List.range (partitionCount 5 2)).flatMap
        (fun i => List.range' (partitionStart 5 (partitionCount 5 2) i)
          (partitionSize 5 (partitionCount 5 2) i)) = List.range 5 :=
  ⟨⟨by decide, by decide⟩, (c2_partition_geometry 5 2 (by decide) (by decide)).2.2.2.2.2⟩

/-- C4: every public operation applied to an empty entity sequence
produces an empty plan — no partition, hence an already-resolved handle
over an empty set of per-partition outcomes — and acquires no connection
from the connection pool. -/
theorem c4_empty_input {α Doc Flt ε : Type} (createDocument : α → Nat → Doc)
    (createDocuments : α → Nat → List Doc) (createFilter : α → Flt) (numThreads : Nat) :
    @bulkInsertPlan α Doc Flt createDocument [] numThreads = [] ∧
    @bulkInsertManyPlan α Doc Flt createDocuments [] numThreads = [] ∧
    @bulkUpsertPlan α Doc Flt createDocument createFilter [] numThreads = [] ∧
    @bulkDeletePlan α Doc Flt createFilter [] numThreads = [] ∧
    whenAllReady ((partitionTraces ([] : List (MongoBehavior ε))).map resolvesHandle) = true ∧
    connectionsAcquired (partitionTraces ([] : List (MongoBehavior ε))) = 0 :=
  ⟨rfl, rfl, rfl, rfl, rfl, rfl⟩

/-- C6: for every entity of a partition slice the Bulk Command Builder
appends exactly the prescribed low-level operation — for upsert one
replace operation with the upsert flag enabled, filter
`createFilter(entity)` and replacement document
`createDocument(entity, index)`; for delete one `delete_many` operation
(removing all matching documents, not only the first) with filter
`createFilter(entity)` — and the resulting bulk command lists the
operations in append order, one per entity. -/
theorem c6_builder_operations {α Doc Flt : Type} (createDocument : α → Nat → Doc)
    (createFilter : α → Flt) (slice : List α) (startIndex : Nat) :
    buildBulk (upsertAppend createDocument createFilter) slice startIndex =
      slice.mapIdx (fun k e => BulkOp.replace_one (createFilter e)
        (createDocument e ((startIndex + k) % UINT32_MOD)) true) ∧
    buildBulk (deleteAppend createFilter) slice startIndex =
      slice.mapIdx (fun _ e => (BulkOp.delete_many (createFilter e) : BulkOp Doc Flt)) ∧
    (∀ op ∈ buildBulk (upsertAppend createDocument createFilter) slice startIndex,
      ∃ f d, op = BulkOp.replace_one f d true) ∧
    (∀ op ∈ @buildBulk α Doc Flt (deleteAppend createFilter) slice startIndex,
      ∃ f, op = BulkOp.delete_many f) := by
  have hupsert : buildBulk (upsertAppend createDocument createFilter) slice startIndex =
      slice.mapIdx (fun k e => BulkOp.replace_one (createFilter e)
        (createDocument e ((startIndex + k) % UINT32_MOD)) true) := by
    rw [buildBulk_mapIdx]
    simp only [upsertAppend]
    rw [flatten_mapIdx_singleton]
  have hdelete : buildBulk (deleteAppend createFilter) slice startIndex =
      slice.mapIdx fun _ e => (BulkOp.delete_many (createFilter e) : BulkOp Doc Flt) := by
    rw [buildBulk_mapIdx]
    simp only [deleteAppend]
    rw [flatten_mapIdx_singleton]
  refine ⟨hupsert, hdelete, ?_, ?_⟩
  · intro op hop
    rw [hupsert] at hop
    obtain ⟨k, e, he⟩ := mem_mapIdx_exists _ _ _ hop
    exact ⟨createFilter e, createDocument e ((startIndex + k) % UINT32_MOD), he⟩
  · intro op hop
    rw [hdelete] at hop
    obtain ⟨k, e, he⟩ := mem_mapIdx_exists _ _ _ hop
    exact ⟨createFilter e, he⟩

/-- C7: the composed aggregate handle is ready exactly when every
partition's executor has resolved; each partition's trace depends only
on its own driver behaviour (a sibling's failure neither cancels nor
retries it); and readiness never implies that all partitions succeeded:
there are behaviours with every handle resolved where one partition
carries a captured failure and another a success. -/
theorem c7_compose_readiness {ε : Type} :
    (∀ resolved : List Bool, whenAllReady resolved = true ↔ ∀ b ∈ resolved, b = true) ∧
    (∀ behaviors₁ behaviors₂ : List (MongoBehavior ε), ∀ j : Nat,
      behaviors₁[j]? = behaviors₂[j]? →
      (partitionTraces behaviors₁)[j]? = (partitionTraces behaviors₂)[j]?) ∧
    (∃ behaviors : List (MongoBehavior ε),
      whenAllReady ((partitionTraces behaviors).map resolvesHandle) = true ∧
      (∃ tr ∈ partitionTraces behaviors, failedHandle tr = true) ∧
      (∃ tr ∈ partitionTraces behaviors, failedHandle tr = false)) := by
  refine ⟨?_, ?_, ?_⟩
  · intro resolved
    unfold whenAllReady
    simp [List.all_eq_true]
  · intro b₁ b₂ j h
    simp only [partitionTraces, List.getElem?_map, h]
  · refine ⟨[MongoBehavior.rejectBulk "write error" none,
      MongoBehavior.success BulkWriteResult.empty], rfl, ?_, ?_⟩
    · exact ⟨execBulkWrite (MongoBehavior.rejectBulk "write error" none),
        List.mem_cons_self _ _, rfl⟩
    · refine ⟨execBulkWrite (MongoBehavior.success BulkWriteResult.empty), ?_, rfl⟩
      simp [partitionTraces]

/-- C8: when the database rejects a bulk command, the executor builds a
diagnostic from the error message, appends the structured server payload
when one was supplied, logs it at `fatal` — the highest severity — and
only then resolves the partition's completion handle with the captured
failure. -/
theorem c8_reject_diagnostic {ε : Type} (codeMessage : String)
    (rawServerError : Option String) :
    execBulkWrite (MongoBehavior.rejectBulk codeMessage rawServerError : MongoBehavior ε) =
      [ExecEvent.acquireConnection,
       ExecEvent.logged LogLevel.fatal
         ("throwing exception: " ++ buildDiagnostic codeMessage rawServerError),
       ExecEvent.resolvedFailure (buildDiagnostic codeMessage rawServerError)] ∧
    (∀ description, buildDiagnostic codeMessage (some description) =
      "message: " ++ codeMessage ++ ", description: " ++ description) ∧
    buildDiagnostic codeMessage none = "message: " ++ codeMessage ∧
    (∀ level : LogLevel, level.severity ≤ LogLevel.fatal.severity) ∧
    failedHandle (execBulkWrite
      (MongoBehavior.rejectBulk codeMessage rawServerError : MongoBehavior ε)) = true := by
  refine ⟨rfl, ?_, ?_, ?_, rfl⟩
  · intro description
    simp [buildDiagnostic, String.append_assoc]
  · simp [buildDiagnostic]
  · intro level
    cases level <;> decide

/-- C9: both asynchronous task kinds — the per-partition build task and
the posted execute task — capture a strong reference to the engine
(`shared_from_this`), and under the reference-counting transition system
the engine's strong-reference count stays positive in every reachable
state with a task in flight, even after the caller has released its
handle. -/
theorem c9_engine_keepalive :
    LambdaCapture.strongEngineRef ∈ buildTaskCaptures ∧
    LambdaCapture.strongEngineRef ∈ executeTaskCaptures ∧
    (∀ s : EngineRefState, EngineReachable s → 0 < s.tasksInFlight → 0 < s.refCount) := by
  refine ⟨by decide, by decide, ?_⟩
  intro s hreach htask
  have h := engine_refCount_eq s hreach
  omega

/-- C9 witness: the state with one task in flight after the caller
released its handle is reachable, and its reference count is positive. -/
theorem c9_engine_keepalive_witness :
    EngineReachable ⟨0, 1, 1⟩ ∧ 0 < (⟨0, 1, 1⟩ : EngineRefState).tasksInFlight ∧
    0 < (⟨0, 1, 1⟩ : EngineRefState).refCount := by
  have h1 : EngineStep initialEngineState ⟨1, 1, 2⟩ := EngineStep.scheduleTask 1 0 0
  have h2 : EngineStep ⟨1, 1, 2⟩ ⟨0, 1, 1⟩ := EngineStep.releaseCaller 0 1 1
  have hreach : EngineReachable ⟨0, 1, 1⟩ :=
    Relation.ReflTransGen.tail (Relation.ReflTransGen.single h1) h2
  exact ⟨hreach, by decide, c9_engine_keepalive.2.2 ⟨0, 1, 1⟩ hreach (by decide)⟩

theorem countInsertOps_append {Doc Flt : Type} (a b : List (BulkOp Doc Flt)) :
    countInsertOps (a ++ b) = countInsertOps a + countInsertOps b := by
  unfold countInsertOps
  rw [List.filter_append, List.length_append]

theorem countInsertOps_flatten {Doc Flt : Type} (L : List (List (BulkOp Doc Flt))) :
    countInsertOps L.flatten = (L.map countInsertOps).sum := by
  induction L with
  | nil => rfl
  | cons l L ih =>
      rw [List.flatten_cons, countInsertOps_append, ih, List.map_cons, List.sum_cons]

theorem buildBulk_insertOne {α Doc Flt : Type} (createDocument : α → Nat → Doc)
    (l : List α) (s : Nat) :
    @buildBulk α Doc Flt (insertOneAppend createDocument) l s =
      l.mapIdx fun k e => BulkOp.insert_one (createDocument e ((s + k) % UINT32_MOD)) := by
  rw [buildBulk_mapIdx]
  simp only [insertOneAppend]
  rw [flatten_mapIdx_singleton]

theorem countInsertOps_mapIdx_insert {α Doc Flt : Type} (h : Nat → α → Doc) (l : List α) :
    countInsertOps (l.mapIdx fun i e => (BulkOp.insert_one (h i e) : BulkOp Doc Flt)) =
      l.length := by
  induction l generalizing h with
  | nil => rfl
  | cons a l ih =>
      rw [List.mapIdx_cons]
      unfold countInsertOps at ih ⊢
      rw [List.filter_cons_of_pos, List.length_cons, ih fun i => h (i + 1), List.length_cons]
      rfl

theorem aggregate_insertPlan {α Doc Flt : Type} (createDocument : α → Nat → Doc)
    (entities : List α) (numThreads : Nat) (hW : 1 ≤ numThreads) :
    (BulkWriteResult.Aggregate
        ((@bulkInsertPlan α Doc Flt createDocument entities numThreads).map
          insertSuccessResult)).NumInserted =
      wrap32 (entities.length) := by
  have hflat : (@bulkInsertPlan α Doc Flt createDocument entities numThreads).flatten =
      buildBulk (insertOneAppend createDocument) entities 0 :=
    bulkWritePlan_flatten (insertOneAppend createDocument) entities numThreads hW
  have hcount :
      ((@bulkInsertPlan α Doc Flt createDocument entities numThreads).map countInsertOps).sum =
        entities.length := by
    rw [← countInsertOps_flatten, hflat, buildBulk_insertOne]
    exact countInsertOps_mapIdx_insert _ _
  calc (BulkWriteResult.Aggregate
        ((@bulkInsertPlan α Doc Flt createDocument entities numThreads).map
          insertSuccessResult)).NumInserted
      = wrap32 ((((@bulkInsertPlan α Doc Flt createDocument entities numThreads).map
          insertSuccessResult).map fun r => r.NumInserted).sum) := Aggregate_NumInserted _
    _ = wrap32 ((((@bulkInsertPlan α Doc Flt createDocument entities numThreads).map
          fun ops => ((countInsertOps ops : Nat) : Int)).map wrap32).sum) := by
        rw [List.map_map, List.map_map]
        rfl
    _ = wrap32 (((@bulkInsertPlan α Doc Flt createDocument entities numThreads).map
          fun ops => ((countInsertOps ops : Nat) : Int)).sum) := wrap32_sum_map _
    _ = wrap32 ((((@bulkInsertPlan α Doc Flt createDocument entities numThreads).map
          countInsertOps).map Nat.cast).sum) := by
        rw [List.map_map]
        rfl
    _ = wrap32 (((@bulkInsertPlan α Doc Flt createDocument entities numThreads).map
          countInsertOps).sum) := by rw [← Nat.cast_list_sum]
    _ = wrap32 (entities.length) := by rw [hcount]

/-- C5 (amended): for every entity sequence of `N` entities and worker
count `W ≥ 1`, the one-to-one `bulkInsert` appends exactly `N` insert
sub-operations in total across all partitions' bulk commands, the `i`-th
(in input order) being an insert of the document produced by
`createDocument` applied to that entity and its global index reduced to
`uint32_t` (equal to `i` itself whenever `N < 2 ^ 31`); and when every
partition succeeds and `N < 2 ^ 31`, the aggregated inserted count
equals `N`. -/
theorem c5_bulk_insert_count {α Doc Flt : Type} (createDocument : α → Nat → Doc)
    (entities : List α) (numThreads : Nat) (hW : 1 ≤ numThreads) :
    (@bulkInsertPlan α Doc Flt createDocument entities numThreads).flatten =
      entities.mapIdx (fun i e => BulkOp.insert_one (createDocument e (i % UINT32_MOD))) ∧
    (@bulkInsertPlan α Doc Flt createDocument entities numThreads).flatten.length =
      entities.length ∧
    (entities.length < 2 ^ 31 →
      (@bulkInsertPlan α Doc Flt createDocument entities numThreads).flatten =
        entities.mapIdx (fun i e => BulkOp.insert_one (createDocument e i)) ∧
      (BulkWriteResult.Aggregate
          ((@bulkInsertPlan α Doc Flt createDocument entities numThreads).map
            insertSuccessResult)).NumInserted =
        entities.length) := by
  have hflat0 : (@bulkInsertPlan α Doc Flt createDocument entities numThreads).flatten =
      buildBulk (insertOneAppend createDocument) entities 0 :=
    bulkWritePlan_flatten (insertOneAppend createDocument) entities numThreads hW
  have hflat : (@bulkInsertPlan α Doc Flt createDocument entities numThreads).flatten =
      entities.mapIdx fun i e => BulkOp.insert_one (createDocument e (i % UINT32_MOD)) := by
    rw [hflat0, buildBulk_insertOne]
    exact mapIdx_congr_lt _ _ _ fun i a _ => by rw [Nat.zero_add]
  refine ⟨hflat, ?_, ?_⟩
  · rw [hflat, List.length_mapIdx]
  · intro hsmall
    constructor
    · rw [hflat]
      refine mapIdx_congr_lt _ _ _ fun i a hi => ?_
      have hilt : i % UINT32_MOD = i := Nat.mod_eq_of_lt (by
        unfold UINT32_MOD
        omega)
      rw [hilt]
    · rw [aggregate_insertPlan createDocument entities numThreads hW]
      exact wrap32_of_inRange (by
        unfold Int32InRange
        omega)

/-- C5 counterexample: with `2 ^ 31` entities on one worker, a fully
successful bulk insert reports an aggregated inserted count of
`-2 ^ 31`, not `2 ^ 31 = N`, because the count is accumulated in an
`int32_t`; the claim as stated, quantifying over every entity sequence,
is therefore false. -/
theorem c5_bulk_insert_counterexample :
    (BulkWriteResult.Aggregate
        ((@bulkInsertPlan Unit Unit Unit (fun _ _ => ()) (List.replicate (2 ^ 31) ()) 1).map
          insertSuccessResult)).NumInserted ≠
      ((List.replicate (2 ^ 31) ()).length : Int) := by
  rw [aggregate_insertPlan (fun _ _ => ()) (List.replicate (2 ^ 31) ()) 1 (Nat.le_refl 1),
    List.length_replicate]
  intro h
  have hin : Int32InRange (wrap32 ((2 ^ 31 : Nat) : Int)) := wrap32_inRange _
  rw [h] at hin
  unfold Int32InRange at hin
  omega

/-- C5 witness: two entities on two workers — one insert per entity with
the entity's global index, and an aggregated inserted count of two. -/
theorem c5_bulk_insert_count_witness :
    1 ≤ 2 ∧
    ([(), ()] : List Unit).length < 2 ^ 31 ∧
    (@bulkInsertPlan Unit Nat Unit (fun _ i => i) [(), ()] 2).flatten =
      [BulkOp.insert_one 0, BulkOp.insert_one 1] ∧
    (BulkWriteResult.Aggregate
        ((@bulkInsertPlan Unit Nat Unit (fun _ i => i) [(), ()] 2).map
          insertSuccessResult)).NumInserted = ([(), ()] : List Unit).length := by
  have h := (@c5_bulk_insert_count Unit Nat Unit (fun _ i => i) [(), ()] 2
    (by decide)).2.2 (by decide)
  exact ⟨by decide, by decide, by rw [h.1]; decide, h.2⟩
